import Mathlib

/-!
Shallow embedding of the typed database layer (`PostgreSqlDb`, file
`src/unnamed/part_000`) together with the JS-level helpers it relies on.

Modelling conventions:
* JS scalar values that may appear in a field mapping (string, number,
  boolean, null, Date) are an inductive `Value`.  A `Date` object is
  represented abstractly by the string returned by its `toISOString()`
  method (`Value.vdate iso`), since the only observation the code makes
  of a `Date` is that serialization.
* A field mapping (a JS object) is a `List (String × Value)` in the
  object's `Object.entries` iteration order.
* `checkName`'s regular expression `/^[a-zA-Z_][a-zA-Z_\d]{0,30}$/` is
  translated character-by-character over `String.data`; the ASCII
  classes are expressed through `Char.toNat` codes (97..122 = a..z,
  65..90 = A..Z, 95 = underscore, 48..57 = 0..9).
* `throw new Error(...)` becomes `Except DbError`; the thrown
  `illegal name` error is `DbError.illegalName name`, carrying the
  offending name.
* The underlying `pg` client is an abstract deterministic function from
  an issued statement (SQL text plus optional positional parameter
  list, exactly what `client.query` receives) to either a row list or a
  driver error.  Effectful methods are interpreted in a state monad `M`
  whose state records the trace of statements handed to the client and
  the list of errors written by `console.error`; a rejected promise is
  an `Except.error` result.
* JS template-literal interpolation of an array (`${columns}` etc.)
  joins the elements with "," and is rendered with
  `String.intercalate ","`.
-/

namespace TypedDb

/-- Scalar values storable in a field mapping.  `vdate iso` stands for a
JS `Date` whose `toISOString()` is `iso`. -/
inductive Value where
  | vnull : Value
  | vbool (b : Bool) : Value
  | vint (n : Int) : Value
  | vstr (s : String) : Value
  | vdate (iso : String) : Value
deriving DecidableEq, Repr

/-- The JS test `value === null`. -/
def Value.isNull : Value → Bool
  | .vnull => true
  | _ => false

/-- The JS test `typeof param === "object" && param instanceof Date`. -/
def Value.isDate : Value → Bool
  | .vdate _ => true
  | _ => false

/-- Errors reported by the underlying client are kept abstract. -/
abbrev DriverError := String

/-- Errors a database operation can reject with: the synchronous
`illegal name` throw of `checkName`, or a re-thrown driver error. -/
inductive DbError where
  | illegalName (name : String)
  | driver (e : DriverError)
deriving DecidableEq, Repr

/-- First-character class of the identifier regex: `[a-zA-Z_]`. -/
def isNameStart (c : Char) : Bool :=
  (decide (97 ≤ c.toNat) && decide (c.toNat ≤ 122)) ||
  (decide (65 ≤ c.toNat) && decide (c.toNat ≤ 90)) ||
  decide (c.toNat = 95)

/-- The regex class `\d` (JS without the unicode flag): `[0-9]`. -/
def isAsciiDigit (c : Char) : Bool :=
  decide (48 ≤ c.toNat) && decide (c.toNat ≤ 57)

/-- Continuation-character class of the identifier regex: `[a-zA-Z_\d]`. -/
def isNameChar (c : Char) : Bool :=
  isNameStart c || isAsciiDigit c

/-- `/^[a-zA-Z_][a-zA-Z_\d]{0,30}$/.test name`: one start character
followed by at most 30 continuation characters, nothing else. -/
def nameOk (name : String) : Bool :=
  match name.data with
  | [] => false
  | c :: cs => isNameStart c && decide (cs.length ≤ 30) && cs.all isNameChar

/-- `checkName` (source lines 16-22): returns the name unchanged when it
matches the identifier pattern, otherwise throws `illegal name`. -/
def checkName (name : String) : Except DbError String :=
  if nameOk name then .ok name else .error (.illegalName name)

/-- Decidable equality on `Except`, so concrete runs can be checked by
`decide`. -/
instance {ε α : Type} [DecidableEq ε] [DecidableEq α] :
    DecidableEq (Except ε α)
  | .ok a, .ok b =>
    if h : a = b then .isTrue (by rw [h]) else .isFalse (by simp [h])
  | .ok _, .error _ => .isFalse (by simp)
  | .error _, .ok _ => .isFalse (by simp)
  | .error e, .error f =>
    if h : e = f then .isTrue (by rw [h]) else .isFalse (by simp [h])

/-- Accumulator/result record of `splitUp` (source lines 24-30). -/
structure SplitUpResult where
  columns : List String
  vars : List String
  params : List Value
  assignments : List String
  whereSection : String
deriving DecidableEq, Repr

/-- One iteration of the `reduce` callback inside `splitUp` (source
lines 38-51). -/
def splitUpStep (isWhere : Bool) (offset : Nat) (r : SplitUpResult)
    (kv : String × Value) : Except DbError SplitUpResult :=
  match checkName kv.1 with
  | .error e => .error e
  | .ok n =>
    let column := "\"" ++ n ++ "\""
    if isWhere && kv.2.isNull then
      .ok { r with assignments := r.assignments ++ [column ++ " is null"] }
    else
      let varTxt := "$" ++ toString (offset + r.vars.length + 1)
      .ok { r with
        columns := r.columns ++ [column]
        vars := r.vars ++ [varTxt]
        params := r.params ++ [kv.2]
        assignments := r.assignments ++ [column ++ " = " ++ varTxt] }

/-- The left fold performed by `fieldsArray.reduce` in `splitUp`. -/
def splitUpFold (isWhere : Bool) (offset : Nat) :
    SplitUpResult → List (String × Value) → Except DbError SplitUpResult
  | r, [] => .ok r
  | r, kv :: rest =>
    match splitUpStep isWhere offset r kv with
    | .error e => .error e
    | .ok r₁ => splitUpFold isWhere offset r₁ rest

/-- `splitUp` (source lines 32-66): fold the entries, then in WHERE mode
render the `whereSection` from the accumulated assignment list
(`result.assignments.length ? " where ..." : ""`). -/
def splitUp (fields : List (String × Value)) (isWhere : Bool := false)
    (offset : Nat := 0) : Except DbError SplitUpResult :=
  match splitUpFold isWhere offset ⟨[], [], [], [], ""⟩ fields with
  | .error e => .error e
  | .ok r =>
    .ok (if isWhere then
      { r with whereSection :=
          if r.assignments.length != 0 then
            " where " ++ String.intercalate " and " r.assignments
          else "" }
    else r)

/-! Statement texts and the client interface. -/

/-- A statement exactly as handed to `client.query`: SQL text and the
optional positional parameter list. -/
structure Stmt where
  sql : String
  params : Option (List Value)
deriving DecidableEq, Repr

/-- A result row (contents are opaque to this layer). -/
abbrev Row := List (String × Value)

/-- The injected `pg` client, abstracted to a deterministic response per
statement. -/
abbrev Client := Stmt → Except DriverError (List Row)

/-- Observable effect state: the statements issued to the client so far,
and the errors written by `console.error`. -/
structure ExecState where
  trace : List Stmt
  log : List DbError
deriving DecidableEq, Repr

/-- Interpretation of an `async` method body: state passing over
`ExecState`, rejection as `Except.error`. -/
def M (α : Type) : Type := ExecState → Except DbError α × ExecState

/-- Monadic return for `M`. -/
def M.pure {α : Type} (a : α) : M α := fun s => (.ok a, s)

/-- Monadic bind for `M`: `await`, short-circuiting on rejection while
keeping the effects already performed. -/
def M.bind {α β : Type} (x : M α) (f : α → M β) : M β := fun s =>
  match x s with
  | (.ok a, s₁) => f a s₁
  | (.error e, s₁) => (.error e, s₁)

/-- A synchronous computation (string building, `checkName`) inside an
`async` body: it performs no effect. -/
def liftE {α : Type} (x : Except DbError α) : M α := fun s => (x, s)

/-- The parameter rewrite inside `query` (source lines 140-148):
`param instanceof Date ? param.toISOString() : param`. -/
def serializeParam : Value → Value
  | .vdate iso => .vstr iso
  | v => v

/-- `query` (source lines 139-150): serialize Date parameters, hand the
statement to the client, and surface its answer unchanged. -/
def query (client : Client) (sql : String) (params : Option (List Value)) :
    M (List Row) :=
  fun s =>
    let st : Stmt := ⟨sql, params.map (List.map serializeParam)⟩
    match client st with
    | .ok rows => (.ok rows, { s with trace := s.trace ++ [st] })
    | .error e => (.error (.driver e), { s with trace := s.trace ++ [st] })

/-- `query2` (source lines 156-164): run `query`, return the rows; on
rejection `console.error` the error once and re-throw it unchanged. -/
def query2 (client : Client) (sql : String) (params : List Value) :
    M (List Row) :=
  fun s =>
    match query client sql (some params) s with
    | (.ok rows, s₁) => (.ok rows, s₁)
    | (.error e, s₁) => (.error e, { s₁ with log := s₁.log ++ [e] })

/-! The SQL text and parameter list each CRUD method builds before its
single `query2` call.  Each builder performs exactly the synchronous
prefix of the corresponding method body, in source order. -/

/-- Statement built by `create` (source lines 166-175). -/
def createStatement (table : String) (fields : List (String × Value)) :
    Except DbError (String × List Value) :=
  match splitUp fields false 0 with
  | .error e => .error e
  | .ok r =>
    match checkName table with
    | .error e => .error e
    | .ok t =>
      .ok ("insert into \"" ++ t ++ "\" (" ++ String.intercalate "," r.columns ++
        ") values (" ++ String.intercalate "," r.vars ++ ")", r.params)

/-- Statement built by `upsert` (source lines 177-187).  Note that the
`unique` list is interpolated verbatim (`${unique}`), never passed
through `checkName`. -/
def upsertStatement (table : String) (fields : List (String × Value))
    (unique : List String) : Except DbError (String × List Value) :=
  match splitUp fields false 0 with
  | .error e => .error e
  | .ok r =>
    match checkName table with
    | .error e => .error e
    | .ok t =>
      .ok ("insert into \"" ++ t ++ "\" (" ++ String.intercalate "," r.columns ++
        ") values (" ++ String.intercalate "," r.vars ++ ") on conflict (" ++
        String.intercalate "," unique ++ ") do update set " ++
        String.intercalate "," r.assignments, r.params)

/-- Statement built by `update` (source lines 189-204): SET fragment at
offset 0, WHERE fragment at offset `params.length`, parameters
concatenated SET-then-WHERE. -/
def updateStatement (table : String) (fields wheres : List (String × Value)) :
    Except DbError (String × List Value) :=
  match splitUp fields false 0 with
  | .error e => .error e
  | .ok r =>
    match splitUp wheres true r.params.length with
    | .error e => .error e
    | .ok w =>
      match checkName table with
      | .error e => .error e
      | .ok t =>
        .ok ("update \"" ++ t ++ "\" set " ++
          String.intercalate "," r.assignments ++ w.whereSection,
          r.params ++ w.params)

/-- Statement built by `select` (source lines 206-218). -/
def selectStatement (table : String) (wheres : List (String × Value)) :
    Except DbError (String × List Value) :=
  match splitUp wheres true 0 with
  | .error e => .error e
  | .ok w =>
    match checkName table with
    | .error e => .error e
    | .ok t => .ok ("select * from \"" ++ t ++ "\"" ++ w.whereSection, w.params)

/-- Statement built by `delete` (source lines 220-230). -/
def deleteStatement (table : String) (wheres : List (String × Value)) :
    Except DbError (String × List Value) :=
  match splitUp wheres true 0 with
  | .error e => .error e
  | .ok w =>
    match checkName table with
    | .error e => .error e
    | .ok t => .ok ("delete from \"" ++ t ++ "\"" ++ w.whereSection, w.params)

/-- The statement a built `(sql, params)` pair turns into at the client:
`query` serializes the parameters and passes them as an array. -/
def issuedStmt (sp : String × List Value) : Stmt :=
  ⟨sp.1, some (sp.2.map serializeParam)⟩

/-- Shared shape of the five CRUD methods: build the statement
synchronously (possibly throwing `illegal name`), then execute it via
`query2`. -/
def execStatement (client : Client) (b : Except DbError (String × List Value)) :
    M (List Row) :=
  M.bind (liftE b) fun sp => query2 client sp.1 sp.2

/-- `create` (source lines 166-175). -/
def create (client : Client) (table : String)
    (fields : List (String × Value)) : M (List Row) :=
  execStatement client (createStatement table fields)

/-- `upsert` (source lines 177-187). -/
def upsert (client : Client) (table : String)
    (fields : List (String × Value)) (unique : List String) : M (List Row) :=
  execStatement client (upsertStatement table fields unique)

/-- `update` (source lines 189-204). -/
def update (client : Client) (table : String)
    (fields wheres : List (String × Value)) : M (List Row) :=
  execStatement client (updateStatement table fields wheres)

/-- `select` (source lines 206-218). -/
def select (client : Client) (table : String)
    (wheres : List (String × Value)) : M (List Row) :=
  execStatement client (selectStatement table wheres)

/-- `delete` (source lines 220-230). -/
def delete (client : Client) (table : String)
    (wheres : List (String × Value)) : M (List Row) :=
  execStatement client (deleteStatement table wheres)

/-- `getItemById` (source lines 129-137): select on `{ id }` and return
`rows[0]` — `none` models JS `undefined` on an empty row list. -/
def getItemById (client : Client) (table : String) (id : Value) :
    M (Option Row) :=
  M.bind (select client table [("id", id)]) fun rows => M.pure rows.head?

/-- The sequential `for ... of` loop of the batch methods: one awaited
single-row operation per element, in order. -/
def mloop {α : Type} (f : α → M (List Row)) : List α → M Unit
  | [] => M.pure ()
  | x :: rest => M.bind (f x) fun _ => mloop f rest

/-- The statement issued by `this.query("begin")`. -/
def beginStmt : Stmt := ⟨"begin", none⟩

/-- The statement issued by
`this.query("SET CONSTRAINTS fk_parent DEFERRED")`. -/
def deferStmt : Stmt := ⟨"SET CONSTRAINTS fk_parent DEFERRED", none⟩

/-- The statement issued by `this.query("commit")`. -/
def commitStmt : Stmt := ⟨"commit", none⟩

/-- `writeRows` (source lines 85-96): begin, defer constraints, one
upsert per row in order, commit. -/
def writeRows (client : Client) (table : String)
    (rows : List (List (String × Value))) (unique : List String) : M Unit :=
  M.bind (query client "begin" none) fun _ =>
  M.bind (query client "SET CONSTRAINTS fk_parent DEFERRED" none) fun _ =>
  M.bind (mloop (fun row => upsert client table row unique) rows) fun _ =>
  M.bind (query client "commit" none) fun _ => M.pure ()

/-- `deleteRows` (source lines 98-108): begin, defer constraints, one
single-row delete on `{ id }` per id in order, commit. -/
def deleteRows (client : Client) (table : String) (ids : List Value) : M Unit :=
  M.bind (query client "begin" none) fun _ =>
  M.bind (query client "SET CONSTRAINTS fk_parent DEFERRED" none) fun _ =>
  M.bind (mloop (fun id => delete client table [("id", id)]) ids) fun _ =>
  M.bind (query client "commit" none) fun _ => M.pure ()

/-! Specification-side descriptions used in the theorem statements. -/

/-- The placeholder texts `$(offset+1) ... $(offset+n)`, in order. -/
def placeholders (offset : Nat) : Nat → List String
  | 0 => []
  | n + 1 => ("$" ++ toString (offset + 1)) :: placeholders (offset + 1) n

/-- The placeholder numbers `offset+1 ... offset+n`, in order. -/
def placeholderNums (offset : Nat) : Nat → List Nat
  | 0 => []
  | n + 1 => (offset + 1) :: placeholderNums (offset + 1) n

/-- Expected non-WHERE assignment list: one `"column" = $k` per entry,
`k` counting up from `offset+1`. -/
def setAssigns (offset : Nat) : List (String × Value) → List String
  | [] => []
  | kv :: rest =>
    ("\"" ++ kv.1 ++ "\"" ++ " = " ++ ("$" ++ toString (offset + 1))) ::
      setAssigns (offset + 1) rest

/-- Expected WHERE assignment list: `"column" is null` for a null value
(consuming no placeholder), `"column" = $k` otherwise. -/
def whereAssigns (offset : Nat) : List (String × Value) → List String
  | [] => []
  | kv :: rest =>
    if kv.2.isNull then
      ("\"" ++ kv.1 ++ "\"" ++ " is null") :: whereAssigns offset rest
    else
      ("\"" ++ kv.1 ++ "\"" ++ " = " ++ ("$" ++ toString (offset + 1))) ::
        whereAssigns (offset + 1) rest

/-- The entries of a WHERE mapping whose value is not null — exactly the
ones that contribute a placeholder and a parameter. -/
def nonNulls (fields : List (String × Value)) : List (String × Value) :=
  fields.filter (fun kv => !kv.2.isNull)

/-- Statements a list of per-element builders would issue, provided
every build succeeds. -/
def buildAll {α : Type} (build : α → Except DbError (String × List Value)) :
    List α → Except DbError (List Stmt)
  | [] => .ok []
  | x :: rest =>
    match build x with
    | .error e => .error e
    | .ok sp =>
      match buildAll build rest with
      | .error e => .error e
      | .ok stmts => .ok (issuedStmt sp :: stmts)

/-- Statements actually issued by one `execStatement` call: one if the
build succeeds, none if it throws. -/
def issuedOf (b : Except DbError (String × List Value)) : List Stmt :=
  match b with
  | .ok sp => [issuedStmt sp]
  | .error _ => []

/-! Basic facts about `checkName` and the fold of `splitUp`. -/

lemma checkName_ok_eq {name t : String} (h : checkName name = .ok t) :
    t = name := by
  unfold checkName at h
  split at h
  · exact (Except.ok.injEq _ _).mp h |>.symm
  · exact absurd h (by simp)

lemma splitUpStep_false_ok {offset : Nat} {acc : SplitUpResult}
    {kv : String × Value} {r₁ : SplitUpResult}
    (h : splitUpStep false offset acc kv = .ok r₁) :
    r₁ = { acc with
      columns := acc.columns ++ ["\"" ++ kv.1 ++ "\""]
      vars := acc.vars ++ ["$" ++ toString (offset + acc.vars.length + 1)]
      params := acc.params ++ [kv.2]
      assignments := acc.assignments ++
        ["\"" ++ kv.1 ++ "\"" ++ " = " ++
          ("$" ++ toString (offset + acc.vars.length + 1))] } := by
  unfold splitUpStep at h
  cases hc : checkName kv.1 with
  | error e => rw [hc] at h; exact absurd h (by simp)
  | ok n =>
    have hn := checkName_ok_eq hc
    subst hn
    rw [hc] at h
    simp only [Bool.false_and, if_neg (by simp : ¬ (false = true))] at h
    exact ((Except.ok.injEq _ _).mp h).symm

lemma splitUpStep_true_null {offset : Nat} {acc : SplitUpResult}
    {kv : String × Value} {r₁ : SplitUpResult}
    (hnull : kv.2.isNull = true) (h : splitUpStep true offset acc kv = .ok r₁) :
    r₁ = { acc with
      assignments := acc.assignments ++ ["\"" ++ kv.1 ++ "\"" ++ " is null"] } := by
  unfold splitUpStep at h
  cases hc : checkName kv.1 with
  | error e => rw [hc] at h; exact absurd h (by simp)
  | ok n =>
    have hn := checkName_ok_eq hc
    subst hn
    rw [hc] at h
    simp only [Bool.true_and, hnull, if_pos rfl] at h
    exact ((Except.ok.injEq _ _).mp h).symm

lemma splitUpStep_true_notnull {offset : Nat} {acc : SplitUpResult}
    {kv : String × Value} {r₁ : SplitUpResult}
    (hnull : kv.2.isNull = false) (h : splitUpStep true offset acc kv = .ok r₁) :
    r₁ = { acc with
      columns := acc.columns ++ ["\"" ++ kv.1 ++ "\""]
      vars := acc.vars ++ ["$" ++ toString (offset + acc.vars.length + 1)]
      params := acc.params ++ [kv.2]
      assignments := acc.assignments ++
        ["\"" ++ kv.1 ++ "\"" ++ " = " ++
          ("$" ++ toString (offset + acc.vars.length + 1))] } := by
  unfold splitUpStep at h
  cases hc : checkName kv.1 with
  | error e => rw [hc] at h; exact absurd h (by simp)
  | ok n =>
    have hn := checkName_ok_eq hc
    subst hn
    rw [hc] at h
    simp only [Bool.true_and, hnull] at h
    simp only [if_neg (by simp : ¬ (false = true))] at h
    exact ((Except.ok.injEq _ _).mp h).symm

lemma splitUpFold_false_spec :
    ∀ (fields : List (String × Value)) (offset : Nat) (acc r : SplitUpResult),
      splitUpFold false offset acc fields = .ok r →
      r.columns = acc.columns ++ fields.map (fun kv => "\"" ++ kv.1 ++ "\"") ∧
      r.vars = acc.vars ++ placeholders (offset + acc.vars.length) fields.length ∧
      r.params = acc.params ++ fields.map Prod.snd ∧
      r.assignments = acc.assignments ++
        setAssigns (offset + acc.vars.length) fields ∧
      r.whereSection = acc.whereSection := by
  intro fields offset
  induction fields with
  | nil =>
    intro acc r h
    unfold splitUpFold at h
    have : acc = r := (Except.ok.injEq _ _).mp h
    subst this
    simp [placeholders, setAssigns]
  | cons kv rest ih =>
    intro acc r h
    unfold splitUpFold at h
    cases hs : splitUpStep false offset acc kv with
    | error e => rw [hs] at h; exact absurd h (by simp)
    | ok acc₁ =>
      rw [hs] at h
      obtain ⟨h1, h2, h3, h4, h5⟩ := ih acc₁ r h
      have ha := splitUpStep_false_ok hs
      subst ha
      simp only [List.length_append, List.length_cons, List.length_nil, Nat.zero_add] at h1 h2 h3 h4 h5 ⊢
      refine ⟨?_, ?_, ?_, ?_, ?_⟩
      · rw [h1]; simp [List.append_assoc]
      · rw [h2]
        simp only [placeholders, List.append_assoc, List.singleton_append]
        have : offset + (acc.vars.length + 1) = offset + acc.vars.length + 1 := by omega
        rw [this]
      · rw [h3]; simp [List.append_assoc]
      · rw [h4]
        simp only [setAssigns, List.append_assoc, List.singleton_append]
        have : offset + (acc.vars.length + 1) = offset + acc.vars.length + 1 := by omega
        rw [this]
      · exact h5

lemma splitUpFold_true_spec :
    ∀ (fields : List (String × Value)) (offset : Nat) (acc r : SplitUpResult),
      splitUpFold true offset acc fields = .ok r →
      r.columns = acc.columns ++
        (nonNulls fields).map (fun kv => "\"" ++ kv.1 ++ "\"") ∧
      r.vars = acc.vars ++
        placeholders (offset + acc.vars.length) (nonNulls fields).length ∧
      r.params = acc.params ++ (nonNulls fields).map Prod.snd ∧
      r.assignments = acc.assignments ++
        whereAssigns (offset + acc.vars.length) fields ∧
      r.whereSection = acc.whereSection := by
  intro fields offset
  induction fields with
  | nil =>
    intro acc r h
    unfold splitUpFold at h
    have : acc = r := (Except.ok.injEq _ _).mp h
    subst this
    simp [placeholders, whereAssigns, nonNulls]
  | cons kv rest ih =>
    intro acc r h
    unfold splitUpFold at h
    cases hs : splitUpStep true offset acc kv with
    | error e => rw [hs] at h; exact absurd h (by simp)
    | ok acc₁ =>
      rw [hs] at h
      obtain ⟨h1, h2, h3, h4, h5⟩ := ih acc₁ r h
      cases hnull : kv.2.isNull with
      | true =>
        have ha := splitUpStep_true_null hnull hs
        subst ha
        have hnn : nonNulls (kv :: rest) = nonNulls rest := by
          simp [nonNulls, List.filter, hnull]
        rw [hnn]
        refine ⟨by rw [h1], by rw [h2], by rw [h3], ?_, h5⟩
        rw [h4]
        simp [whereAssigns, hnull, List.append_assoc]
      | false =>
        have ha := splitUpStep_true_notnull hnull hs
        subst ha
        have hnn : nonNulls (kv :: rest) = kv :: nonNulls rest := by
          simp [nonNulls, List.filter, hnull]
        rw [hnn]
        simp only [List.length_append, List.length_cons, List.length_nil,
          Nat.zero_add, List.map_cons] at h1 h2 h3 h4 h5 ⊢
        refine ⟨?_, ?_, ?_, ?_, h5⟩
        · rw [h1]; simp [List.append_assoc]
        · rw [h2]
          simp only [placeholders, List.append_assoc, List.singleton_append]
          have : offset + (acc.vars.length + 1) = offset + acc.vars.length + 1 := by omega
          rw [this]
        · rw [h3]; simp [List.append_assoc]
        · rw [h4]
          simp only [whereAssigns, hnull, List.append_assoc, List.singleton_append]
          have : offset + (acc.vars.length + 1) = offset + acc.vars.length + 1 := by omega
          rw [this]
          simp

/-! Top-level characterizations of `splitUp` in each mode. -/

lemma splitUp_false_ok {fields : List (String × Value)} {offset : Nat}
    {r : SplitUpResult} (h : splitUp fields false offset = .ok r) :
    r.columns = fields.map (fun kv => "\"" ++ kv.1 ++ "\"") ∧
    r.vars = placeholders offset fields.length ∧
    r.params = fields.map Prod.snd ∧
    r.assignments = setAssigns offset fields ∧
    r.whereSection = "" := by
  unfold splitUp at h
  cases hf : splitUpFold false offset ⟨[], [], [], [], ""⟩ fields with
  | error e => rw [hf] at h; exact absurd h (by simp)
  | ok r₀ =>
    rw [hf] at h
    simp only [if_neg (by simp : ¬ (false = true))] at h
    have hr : r₀ = r := (Except.ok.injEq _ _).mp h
    subst hr
    have := splitUpFold_false_spec fields offset _ _ hf
    simpa using this

lemma splitUp_true_ok {fields : List (String × Value)} {offset : Nat}
    {r : SplitUpResult} (h : splitUp fields true offset = .ok r) :
    r.columns = (nonNulls fields).map (fun kv => "\"" ++ kv.1 ++ "\"") ∧
    r.vars = placeholders offset (nonNulls fields).length ∧
    r.params = (nonNulls fields).map Prod.snd ∧
    r.assignments = whereAssigns offset fields ∧
    r.whereSection =
      (if (whereAssigns offset fields).length != 0 then
        " where " ++ String.intercalate " and " (whereAssigns offset fields)
      else "") := by
  unfold splitUp at h
  cases hf : splitUpFold true offset ⟨[], [], [], [], ""⟩ fields with
  | error e => rw [hf] at h; exact absurd h (by simp)
  | ok r₀ =>
    rw [hf] at h
    obtain ⟨h1, h2, h3, h4, h5⟩ := splitUpFold_true_spec fields offset _ _ hf
    simp only [List.nil_append, List.length_nil, Nat.add_zero] at h1 h2 h3 h4
    simp only [eq_self_iff_true, if_true] at h
    have hr := (Except.ok.injEq _ _).mp h
    subst hr
    refine ⟨h1, h2, h3, h4, ?_⟩
    simp only [h4]

lemma whereAssigns_length (offset : Nat) (fields : List (String × Value)) :
    (whereAssigns offset fields).length = fields.length := by
  induction fields generalizing offset with
  | nil => rfl
  | cons kv rest ih =>
    cases h : kv.2.isNull with
    | true => simp [whereAssigns, h, ih]
    | false => simp [whereAssigns, h, ih]

lemma where_prefix_ne_empty (x : String) : " where " ++ x ≠ "" := by
  intro h
  have h₁ := congrArg String.length h
  rw [String.length_append] at h₁
  have h₂ : (" where " : String).length = 7 := rfl
  have h₃ : ("" : String).length = 0 := rfl
  rw [h₂, h₃] at h₁
  omega

/-- C1: in non-WHERE mode, `splitUp` on a mapping of size `N` at offset
`O` produces exactly `N` quoted column names, exactly `N` placeholders
numbered `$(O+1)` through `$(O+N)` in order, and a parameter list equal
to the mapping's values in iteration order. -/
theorem splitUp_nonwhere_spec (fields : List (String × Value)) (offset : Nat)
    (r : SplitUpResult) (h : splitUp fields false offset = .ok r) :
    r.columns = fields.map (fun kv => "\"" ++ kv.1 ++ "\"") ∧
    r.columns.length = fields.length ∧
    r.vars = placeholders offset fields.length ∧
    r.vars.length = fields.length ∧
    r.params = fields.map Prod.snd := by
  obtain ⟨h1, h2, h3, h4, h5⟩ := splitUp_false_ok h
  refine ⟨h1, by simp [h1], h2, ?_, h3⟩
  rw [h2]
  clear h h1 h2 h3 h4 h5
  induction fields generalizing offset with
  | nil => rfl
  | cons kv rest ih => simpa [placeholders] using ih (offset + 1)

/-- Witness for `splitUp_nonwhere_spec` at a concrete mapping and
offset. -/
theorem splitUp_nonwhere_spec_witness :
    (⟨["\"a\"", "\"b\""], ["$4", "$5"],
      [Value.vint 1, Value.vnull],
      ["\"a\" = $4", "\"b\" = $5"], ""⟩ : SplitUpResult).columns =
        [("a", Value.vint 1), ("b", Value.vnull)].map
          (fun kv => "\"" ++ kv.1 ++ "\"") ∧
    (⟨["\"a\"", "\"b\""], ["$4", "$5"],
      [Value.vint 1, Value.vnull],
      ["\"a\" = $4", "\"b\" = $5"], ""⟩ : SplitUpResult).columns.length =
        [("a", Value.vint 1), ("b", Value.vnull)].length ∧
    (⟨["\"a\"", "\"b\""], ["$4", "$5"],
      [Value.vint 1, Value.vnull],
      ["\"a\" = $4", "\"b\" = $5"], ""⟩ : SplitUpResult).vars =
        placeholders 3 [("a", Value.vint 1), ("b", Value.vnull)].length ∧
    (⟨["\"a\"", "\"b\""], ["$4", "$5"],
      [Value.vint 1, Value.vnull],
      ["\"a\" = $4", "\"b\" = $5"], ""⟩ : SplitUpResult).vars.length =
        [("a", Value.vint 1), ("b", Value.vnull)].length ∧
    (⟨["\"a\"", "\"b\""], ["$4", "$5"],
      [Value.vint 1, Value.vnull],
      ["\"a\" = $4", "\"b\" = $5"], ""⟩ : SplitUpResult).params =
        [("a", Value.vint 1), ("b", Value.vnull)].map Prod.snd :=
  splitUp_nonwhere_spec [("a", Value.vint 1), ("b", Value.vnull)] 3 _
    (by decide)

/-- C2: in WHERE mode, every entry whose value is exactly null is
rendered as a `"column" is null` assignment contributing no placeholder
and no parameter; every other entry is rendered as `"column" = $k`
contributing exactly one parameter (placeholders counting up from
`offset+1` over the non-null entries); the rendered WHERE-clause string
is empty iff the mapping is empty, and otherwise it is the assignments
joined with `and`, prefixed by `where`. -/
theorem splitUp_where_spec (fields : List (String × Value)) (offset : Nat)
    (r : SplitUpResult) (h : splitUp fields true offset = .ok r) :
    r.assignments = whereAssigns offset fields ∧
    r.assignments.length = fields.length ∧
    r.params = (nonNulls fields).map Prod.snd ∧
    r.vars = placeholders offset (nonNulls fields).length ∧
    (r.whereSection = "" ↔ fields = []) ∧
    (fields ≠ [] →
      r.whereSection = " where " ++
        String.intercalate " and " (whereAssigns offset fields)) := by
  obtain ⟨h1, h2, h3, h4, h5⟩ := splitUp_true_ok h
  have hlen : (whereAssigns offset fields).length = fields.length :=
    whereAssigns_length offset fields
  refine ⟨h4, by rw [h4, hlen], h3, h2, ?_, ?_⟩
  · constructor
    · intro hempty
      by_contra hne
      have hpos : (whereAssigns offset fields).length ≠ 0 := by
        rw [hlen]
        simpa using hne
      rw [h5] at hempty
      rw [if_pos (by simpa using hpos)] at hempty
      exact where_prefix_ne_empty _ hempty
    · intro hempty
      subst hempty
      simpa [whereAssigns] using h5
  · intro hne
    have hpos : (whereAssigns offset fields).length ≠ 0 := by
      rw [hlen]
      simpa using hne
    rw [h5, if_pos (by simpa using hpos)]

/-- Witness for `splitUp_where_spec` at a concrete mapping containing a
null and a non-null entry. -/
theorem splitUp_where_spec_witness :
    (⟨["\"b\""], ["$1"], [Value.vint 2],
      ["\"a\" is null", "\"b\" = $1"],
      " where \"a\" is null and \"b\" = $1"⟩ : SplitUpResult).assignments =
        whereAssigns 0 [("a", Value.vnull), ("b", Value.vint 2)] ∧
    (⟨["\"b\""], ["$1"], [Value.vint 2],
      ["\"a\" is null", "\"b\" = $1"],
      " where \"a\" is null and \"b\" = $1"⟩ : SplitUpResult).assignments.length =
        [("a", Value.vnull), ("b", Value.vint 2)].length ∧
    (⟨["\"b\""], ["$1"], [Value.vint 2],
      ["\"a\" is null", "\"b\" = $1"],
      " where \"a\" is null and \"b\" = $1"⟩ : SplitUpResult).params =
        (nonNulls [("a", Value.vnull), ("b", Value.vint 2)]).map Prod.snd ∧
    (⟨["\"b\""], ["$1"], [Value.vint 2],
      ["\"a\" is null", "\"b\" = $1"],
      " where \"a\" is null and \"b\" = $1"⟩ : SplitUpResult).vars =
        placeholders 0 (nonNulls [("a", Value.vnull), ("b", Value.vint 2)]).length ∧
    ((⟨["\"b\""], ["$1"], [Value.vint 2],
      ["\"a\" is null", "\"b\" = $1"],
      " where \"a\" is null and \"b\" = $1"⟩ : SplitUpResult).whereSection = ""
      ↔ [("a", Value.vnull), ("b", Value.vint 2)] = []) ∧
    ([("a", Value.vnull), ("b", Value.vint 2)] ≠ [] →
      (⟨["\"b\""], ["$1"], [Value.vint 2],
        ["\"a\" is null", "\"b\" = $1"],
        " where \"a\" is null and \"b\" = $1"⟩ : SplitUpResult).whereSection =
        " where " ++ String.intercalate " and "
          (whereAssigns 0 [("a", Value.vnull), ("b", Value.vint 2)])) :=
  splitUp_where_spec [("a", Value.vnull), ("b", Value.vint 2)] 0 _ (by decide)

/-! Claim C4: the identifier validator. -/

lemma isNameChar_of_start {c : Char} (h : isNameStart c = true) :
    isNameChar c = true := by
  simp [isNameChar, h]

lemma isNameStart_eq_false_of_digit {c : Char} (h : isAsciiDigit c = true) :
    isNameStart c = false := by
  simp only [isAsciiDigit, Bool.and_eq_true, decide_eq_true_eq] at h
  simp only [isNameStart, Bool.or_eq_false_iff, Bool.and_eq_false_iff,
    decide_eq_false_iff_not, not_le]
  omega

lemma nameOk_false_of_badchar {name : String} {c : Char}
    (hc : c ∈ name.data) (hbad : isNameChar c = false) :
    nameOk name = false := by
  unfold nameOk
  cases hd : name.data with
  | nil => rfl
  | cons c₀ cs =>
    rw [hd] at hc
    rcases List.mem_cons.mp hc with hc₀ | hcs
    · subst hc₀
      have : isNameStart c = false := by
        cases hs : isNameStart c with
        | false => rfl
        | true => rw [isNameChar_of_start hs] at hbad; exact absurd hbad (by simp)
      simp [this]
    · have : cs.all isNameChar = false := by
        rw [List.all_eq_false]
        exact ⟨c, hcs, by simp [hbad]⟩
      simp [this]

/-- C4: every string made of one `[A-Za-z_]` character followed by at
most 30 `[A-Za-z0-9_]` characters is returned unchanged by `checkName`;
every string containing a character outside `[A-Za-z0-9_]`, or starting
with a digit, or longer than 31 characters, makes `checkName` throw the
`illegal name` error carrying the offending name. -/
theorem checkName_spec (name : String) :
    (∀ c cs, name.data = c :: cs → isNameStart c = true →
      cs.all isNameChar = true → cs.length ≤ 30 →
      checkName name = .ok name) ∧
    ((∃ c ∈ name.data, isNameChar c = false) ∨
      (∃ c cs, name.data = c :: cs ∧ isAsciiDigit c = true) ∨
      31 < name.data.length →
      checkName name = .error (.illegalName name)) := by
  constructor
  · intro c cs hd hstart hall hlen
    have hok : nameOk name = true := by
      unfold nameOk
      rw [hd]
      simp [hstart, hall, hlen]
    simp [checkName, hok]
  · intro hbad
    have hko : nameOk name = false := by
      rcases hbad with ⟨c, hc, hbadc⟩ | ⟨c, cs, hd, hdig⟩ | hlong
      · exact nameOk_false_of_badchar hc hbadc
      · unfold nameOk
        rw [hd]
        simp [isNameStart_eq_false_of_digit hdig]
      · unfold nameOk
        cases hd : name.data with
        | nil => rfl
        | cons c₀ cs =>
          rw [hd] at hlong
          simp only [List.length_cons] at hlong
          have : ¬ cs.length ≤ 30 := by omega
          simp [this]
    simp [checkName, hko]

/-- Witness for `checkName_spec`: the valid name `users` is returned
unchanged, the digit-initial name `9bad` is rejected. -/
theorem checkName_spec_witness :
    checkName "users" = .ok "users" ∧
    checkName "9bad" = .error (.illegalName "9bad") :=
  ⟨(checkName_spec "users").1 'u' ['s', 'e', 'r', 's'] (by decide) (by decide)
      (by decide) (by decide),
    (checkName_spec "9bad").2
      (Or.inr (Or.inl ⟨'9', ['b', 'a', 'd'], by decide, by decide⟩))⟩

/-! Claim C3: combining a SET fragment at offset 0 with a WHERE fragment
at offset `params.length`, as `update` does. -/

lemma placeholders_append (o a b : Nat) :
    placeholders o (a + b) = placeholders o a ++ placeholders (o + a) b := by
  induction a generalizing o with
  | zero => simp [placeholders]
  | succ a ih =>
    have e₂ : o + (a + 1) = (o + 1) + a := by omega
    simp only [placeholders, Nat.succ_add a b, e₂, List.cons_append]
    rw [ih (o + 1)]

lemma placeholders_eq_map (o n : Nat) :
    placeholders o n = (placeholderNums o n).map (fun k => "$" ++ toString k) := by
  induction n generalizing o with
  | zero => rfl
  | succ n ih => simp [placeholders, placeholderNums, ih]

lemma placeholderNums_gt (o n : Nat) : ∀ m ∈ placeholderNums o n, o < m := by
  induction n generalizing o with
  | zero => intro m hm; exact absurd hm (by simp [placeholderNums])
  | succ n ih =>
    intro m hm
    rcases List.mem_cons.mp hm with h | h
    · omega
    · have := ih (o + 1) m h
      omega

lemma placeholderNums_nodup (o n : Nat) : (placeholderNums o n).Nodup := by
  induction n generalizing o with
  | zero => simp [placeholderNums]
  | succ n ih =>
    refine List.nodup_cons.mpr ⟨?_, ih (o + 1)⟩
    intro hmem
    have := placeholderNums_gt (o + 1) n _ hmem
    omega

/-- C3 fails as stated: with a SET mapping of size N = 1 and a WHERE
mapping of size M = 1 whose value is null, the combined placeholder list
is just `$1`, not `$1,$2`: the null WHERE entry contributes no
placeholder. -/
theorem update_offsets_counterexample :
    ¬ (∀ r₁ r₂, splitUp [("a", Value.vint 1)] false 0 = .ok r₁ →
        splitUp [("b", Value.vnull)] true r₁.params.length = .ok r₂ →
        r₁.vars ++ r₂.vars = ["$1", "$2"]) := by
  intro h
  have h₂ := h
    ⟨["\"a\""], ["$1"], [Value.vint 1], ["\"a\" = $1"], ""⟩
    ⟨[], [], [], ["\"b\" is null"], " where \"b\" is null"⟩
    (by decide) (by decide)
  exact absurd h₂ (by decide)

/-- C3 (amended): building the SET fragment at offset 0 and the WHERE
fragment at offset equal to the SET fragment's parameter count (as
`update` does) yields placeholders `$1` through `$(N+M′)`, where `M′`
is the number of WHERE entries whose value is not null (null entries
contribute no placeholder); no placeholder number is used twice; the
combined parameter list is the SET parameters followed by the WHERE
parameters. -/
theorem update_offsets_spec (fields wheres : List (String × Value))
    (r₁ r₂ : SplitUpResult)
    (h₁ : splitUp fields false 0 = .ok r₁)
    (h₂ : splitUp wheres true r₁.params.length = .ok r₂) :
    r₁.vars ++ r₂.vars =
      placeholders 0 (fields.length + (nonNulls wheres).length) ∧
    r₁.vars ++ r₂.vars =
      (placeholderNums 0 (fields.length + (nonNulls wheres).length)).map
        (fun k => "$" ++ toString k) ∧
    (placeholderNums 0 (fields.length + (nonNulls wheres).length)).Nodup ∧
    r₁.params ++ r₂.params =
      fields.map Prod.snd ++ (nonNulls wheres).map Prod.snd := by
  obtain ⟨c1, c2, p1, _, _⟩ := splitUp_false_ok h₁
  obtain ⟨w1, w2, w3, _, _⟩ := splitUp_true_ok h₂
  have hplen : r₁.params.length = fields.length := by simp [p1]
  rw [hplen] at w2
  have hcomb : r₁.vars ++ r₂.vars =
      placeholders 0 (fields.length + (nonNulls wheres).length) := by
    rw [c2, w2, placeholders_append]
    simp
  refine ⟨hcomb, ?_, placeholderNums_nodup _ _, ?_⟩
  · rw [hcomb, placeholders_eq_map]
  · rw [p1, w3]

/-- Witness for `update_offsets_spec` at SET mapping `{a: 1}` and WHERE
mapping `{b: null, c: 2}`. -/
theorem update_offsets_spec_witness :
    ["$1"] ++ ["$2"] =
      placeholders 0 ([("a", Value.vint 1)].length +
        (nonNulls [("b", Value.vnull), ("c", Value.vint 2)]).length) ∧
    ["$1"] ++ ["$2"] =
      (placeholderNums 0 ([("a", Value.vint 1)].length +
        (nonNulls [("b", Value.vnull), ("c", Value.vint 2)]).length)).map
          (fun k => "$" ++ toString k) ∧
    (placeholderNums 0 ([("a", Value.vint 1)].length +
      (nonNulls [("b", Value.vnull), ("c", Value.vint 2)]).length)).Nodup ∧
    [Value.vint 1] ++ [Value.vint 2] =
      [("a", Value.vint 1)].map Prod.snd ++
        (nonNulls [("b", Value.vnull), ("c", Value.vint 2)]).map Prod.snd := by
  have h := update_offsets_spec [("a", Value.vint 1)]
    [("b", Value.vnull), ("c", Value.vint 2)]
    ⟨["\"a\""], ["$1"], [Value.vint 1], ["\"a\" = $1"], ""⟩
    ⟨["\"c\""], ["$2"], [Value.vint 2],
      ["\"b\" is null", "\"c\" = $2"],
      " where \"b\" is null and \"c\" = $2"⟩
    (by decide) (by decide)
  exact h

/-! Execution-layer characterizations shared by the remaining claims. -/

lemma execStatement_run_error {client : Client}
    {b : Except DbError (String × List Value)} {e : DbError} {s : ExecState}
    (h : b = .error e) : execStatement client b s = (.error e, s) := by
  subst h
  rfl

lemma execStatement_run_ok {client : Client}
    {b : Except DbError (String × List Value)} {sp : String × List Value}
    {s : ExecState} (h : b = .ok sp) :
    execStatement client b s =
      (match client (issuedStmt sp) with
        | .ok rows => (.ok rows, ⟨s.trace ++ [issuedStmt sp], s.log⟩)
        | .error de => (.error (.driver de),
            ⟨s.trace ++ [issuedStmt sp], s.log ++ [DbError.driver de]⟩)) := by
  subst h
  cases hc : client (issuedStmt sp) with
  | ok rows =>
    simp only [execStatement, M.bind, liftE, query2, query, issuedStmt,
      Option.map_some'] at hc ⊢
    rw [hc]
  | error de =>
    simp only [execStatement, M.bind, liftE, query2, query, issuedStmt,
      Option.map_some'] at hc ⊢
    rw [hc]

lemma execStatement_ok_inv {client : Client}
    {b : Except DbError (String × List Value)} {s : ExecState}
    {v : List Row} {s₁ : ExecState}
    (h : execStatement client b s = (.ok v, s₁)) :
    ∃ sp, b = .ok sp ∧ client (issuedStmt sp) = .ok v ∧
      s₁ = ⟨s.trace ++ [issuedStmt sp], s.log⟩ := by
  cases hb : b with
  | error e =>
    rw [execStatement_run_error hb] at h
    exact absurd (congrArg Prod.fst h) (by simp)
  | ok sp =>
    rw [execStatement_run_ok hb] at h
    cases hc : client (issuedStmt sp) with
    | ok rows =>
      rw [hc] at h
      have h₁ : rows = v := by simpa using congrArg Prod.fst h
      have h₂ : s₁ = ⟨s.trace ++ [issuedStmt sp], s.log⟩ := by
        simpa using (congrArg Prod.snd h).symm
      subst h₁
      exact ⟨sp, rfl, hc, h₂⟩
    | error de =>
      rw [hc] at h
      exact absurd (congrArg Prod.fst h) (by simp)

lemma execStatement_error_inv {client : Client}
    {b : Except DbError (String × List Value)} {s : ExecState}
    {e : DbError} {s₁ : ExecState}
    (h : execStatement client b s = (.error e, s₁)) :
    (b = .error e ∧ s₁ = s) ∨
    ∃ sp de, b = .ok sp ∧ client (issuedStmt sp) = .error de ∧
      e = .driver de ∧
      s₁ = ⟨s.trace ++ [issuedStmt sp], s.log ++ [DbError.driver de]⟩ := by
  cases hb : b with
  | error e₀ =>
    rw [execStatement_run_error hb] at h
    left
    have h₁ := congrArg Prod.fst h
    have h₂ := congrArg Prod.snd h
    simp only at h₁ h₂
    exact ⟨by rw [(Except.error.injEq _ _).mp h₁.symm], h₂.symm⟩
  | ok sp =>
    rw [execStatement_run_ok hb] at h
    cases hc : client (issuedStmt sp) with
    | ok rows =>
      rw [hc] at h
      exact absurd (congrArg Prod.fst h) (by simp)
    | error de =>
      rw [hc] at h
      right
      have h₁ := congrArg Prod.fst h
      have h₂ := congrArg Prod.snd h
      simp only at h₁ h₂
      exact ⟨sp, de, rfl, hc, ((Except.error.injEq _ _).mp h₁.symm).symm ▸ rfl,
        h₂.symm⟩

/-- A client answering every statement with an empty row set. -/
def clientOk : Client := fun _ => .ok []

/-- A client rejecting every statement with the driver error `boom`. -/
def clientErr : Client := fun _ => .error "boom"

/-! Claim C5: the upsert statement. -/

lemma setAssigns_zip (o : Nat) (l : List (String × Value)) :
    setAssigns o l =
      List.zipWith (fun c v => c ++ " = " ++ v)
        (l.map (fun kv => "\"" ++ kv.1 ++ "\"")) (placeholders o l.length) := by
  induction l generalizing o with
  | nil => rfl
  | cons kv rest ih =>
    simp [setAssigns, placeholders, ih (o + 1)]

/-- C5 fails as stated: `upsert("users", {id:1, name:"Bob"}, ["id"])`
does not issue the claimed text
`INSERT INTO "users" ("id","name") VALUES ($1,$2) ON CONFLICT (id) DO
UPDATE SET "id" = $1, "name" = $2` — the code emits lowercase keywords
and joins the SET assignments with a bare comma. -/
theorem upsert_literal_counterexample :
    ¬ ((upsertStatement "users"
        [("id", Value.vint 1), ("name", Value.vstr "Bob")] ["id"]).map
          Prod.fst =
      .ok "INSERT INTO \"users\" (\"id\",\"name\") VALUES ($1,$2) ON CONFLICT (id) DO UPDATE SET \"id\" = $1, \"name\" = $2") := by
  decide

/-- C5 (amended): `upsert(table, fields, unique)` builds
`insert into "table" (columns) values (placeholders) on conflict
(unique-columns) do update set assignments`, where the SET assignments
pair each quoted column with the same placeholder used in the VALUES
list, and the caller-supplied unique column names are interpolated
verbatim (comma-joined) without passing through the identifier
validator; in particular `upsert("users", {id:1, name:"Bob"}, ["id"])`
builds `insert into "users" ("id","name") values ($1,$2) on conflict
(id) do update set "id" = $1,"name" = $2` with parameters `[1, "Bob"]`,
and an illegal unique column name does not make the build fail. -/
theorem upsert_statement_spec :
    (∀ (table : String) (fields : List (String × Value))
        (unique : List String) (r : SplitUpResult) (t : String),
      splitUp fields false 0 = .ok r → checkName table = .ok t →
      upsertStatement table fields unique =
        .ok ("insert into \"" ++ t ++ "\" (" ++
          String.intercalate "," r.columns ++ ") values (" ++
          String.intercalate "," r.vars ++ ") on conflict (" ++
          String.intercalate "," unique ++ ") do update set " ++
          String.intercalate "," r.assignments, r.params) ∧
      r.assignments =
        List.zipWith (fun c v => c ++ " = " ++ v) r.columns r.vars) ∧
    upsertStatement "users"
        [("id", Value.vint 1), ("name", Value.vstr "Bob")] ["id"] =
      .ok ("insert into \"users\" (\"id\",\"name\") values ($1,$2) on conflict (id) do update set \"id\" = $1,\"name\" = $2",
        [Value.vint 1, Value.vstr "Bob"]) ∧
    (upsertStatement "users" [("id", Value.vint 1)]
        ["id; drop table users --"]).isOk = true := by
  refine ⟨?_, by decide, by decide⟩
  intro table fields unique r t hs ht
  obtain ⟨h1, h2, _, h4, _⟩ := splitUp_false_ok hs
  constructor
  · unfold upsertStatement
    rw [hs, ht]
  · rw [h1, h2, h4, setAssigns_zip]

/-- Witness for the general part of `upsert_statement_spec` at a
concrete call. -/
theorem upsert_statement_spec_witness :
    upsertStatement "t1" [("a", Value.vint 7)] ["x"] =
      .ok ("insert into \"" ++ "t1" ++ "\" (" ++
        String.intercalate ","
          (⟨["\"a\""], ["$1"], [Value.vint 7], ["\"a\" = $1"], ""⟩ :
            SplitUpResult).columns ++ ") values (" ++
        String.intercalate ","
          (⟨["\"a\""], ["$1"], [Value.vint 7], ["\"a\" = $1"], ""⟩ :
            SplitUpResult).vars ++ ") on conflict (" ++
        String.intercalate "," ["x"] ++ ") do update set " ++
        String.intercalate ","
          (⟨["\"a\""], ["$1"], [Value.vint 7], ["\"a\" = $1"], ""⟩ :
            SplitUpResult).assignments,
        (⟨["\"a\""], ["$1"], [Value.vint 7], ["\"a\" = $1"], ""⟩ :
          SplitUpResult).params) ∧
    (⟨["\"a\""], ["$1"], [Value.vint 7], ["\"a\" = $1"], ""⟩ :
        SplitUpResult).assignments =
      List.zipWith (fun c v => c ++ " = " ++ v)
        (⟨["\"a\""], ["$1"], [Value.vint 7], ["\"a\" = $1"], ""⟩ :
          SplitUpResult).columns
        (⟨["\"a\""], ["$1"], [Value.vint 7], ["\"a\" = $1"], ""⟩ :
          SplitUpResult).vars :=
  upsert_statement_spec.1 "t1" [("a", Value.vint 7)] ["x"] _ "t1"
    (by decide) (by decide)

/-! Claim C6: the update end-to-end scenario. -/

/-- C6 fails as stated: the SQL text issued by
`update("users", {age:31}, {id:5})` is not the claimed
`UPDATE "users" SET "age" = $1 WHERE "id" = $2` — the code emits
lowercase keywords. -/
theorem update_literal_counterexample :
    ¬ ((updateStatement "users" [("age", Value.vint 31)]
        [("id", Value.vint 5)]).map Prod.fst =
      .ok "UPDATE \"users\" SET \"age\" = $1 WHERE \"id\" = $2") := by
  decide

/-- C6 (amended): `update("users", {age:31}, {id:5})` issues exactly the
SQL text `update "users" set "age" = $1 where "id" = $2` with the
parameter list `[31, 5]`, whatever the client answers. -/
theorem update_scenario_spec (client : Client) (s : ExecState) :
    (update client "users" [("age", Value.vint 31)]
      [("id", Value.vint 5)] s).2.trace =
      s.trace ++ [⟨"update \"users\" set \"age\" = $1 where \"id\" = $2",
        some [Value.vint 31, Value.vint 5]⟩] := by
  have hb : updateStatement "users" [("age", Value.vint 31)]
      [("id", Value.vint 5)] =
      .ok ("update \"users\" set \"age\" = $1 where \"id\" = $2",
        [Value.vint 31, Value.vint 5]) := by decide
  show (execStatement client (updateStatement "users"
    [("age", Value.vint 31)] [("id", Value.vint 5)]) s).2.trace = _
  rw [execStatement_run_ok hb]
  cases hc : client (issuedStmt
      ("update \"users\" set \"age\" = $1 where \"id\" = $2",
        [Value.vint 31, Value.vint 5])) with
  | ok rows => rfl
  | error de => rfl

/-! Claim C7: Date serialization in `query`. -/

/-- C7: for every SQL text and parameter list, the statement handed to
the underlying client carries the parameters mapped positionally through
`serializeParam`, which replaces a `Date` by its ISO serialization and
leaves every non-`Date` value unchanged; the result surfaced is exactly
the client's answer for that serialized statement. -/
theorem query_serializes_params (client : Client) (sql : String)
    (params : List Value) (s : ExecState) :
    ∃ qs,
      (query client sql (some params) s).2.trace =
        s.trace ++ [⟨sql, some qs⟩] ∧
      (query client sql (some params) s).1 =
        (match client ⟨sql, some qs⟩ with
          | .ok rows => .ok rows
          | .error e => .error (.driver e)) ∧
      qs = params.map serializeParam ∧
      (∀ iso, serializeParam (Value.vdate iso) = Value.vstr iso) ∧
      (∀ v : Value, v.isDate = false → serializeParam v = v) := by
  refine ⟨params.map serializeParam, ?_, ?_, rfl, fun iso => rfl, ?_⟩
  · cases hc : client ⟨sql, some (params.map serializeParam)⟩ <;>
      simp [query, hc]
  · cases hc : client ⟨sql, some (params.map serializeParam)⟩ <;>
      simp [query, hc]
  · intro v hv
    cases v <;> simp_all [serializeParam, Value.isDate]

/-- Witness for `query_serializes_params` at a concrete parameter list
holding a Date and an integer. -/
theorem query_serializes_params_witness :
    ∃ qs,
      (query clientOk "q" (some [Value.vdate "2020-01-02T03:04:05.000Z",
        Value.vint 3]) ⟨[], []⟩).2.trace =
        (⟨[], []⟩ : ExecState).trace ++ [⟨"q", some qs⟩] ∧
      (query clientOk "q" (some [Value.vdate "2020-01-02T03:04:05.000Z",
        Value.vint 3]) ⟨[], []⟩).1 =
        (match clientOk ⟨"q", some qs⟩ with
          | .ok rows => .ok rows
          | .error e => .error (.driver e)) ∧
      qs = [Value.vdate "2020-01-02T03:04:05.000Z",
        Value.vint 3].map serializeParam ∧
      (∀ iso, serializeParam (Value.vdate iso) = Value.vstr iso) ∧
      (∀ v : Value, v.isDate = false → serializeParam v = v) :=
  query_serializes_params clientOk "q"
    [Value.vdate "2020-01-02T03:04:05.000Z", Value.vint 3] ⟨[], []⟩

/-! Claim C8: driver errors are logged once and re-thrown unchanged by
every statement-executing operation. -/

/-- C8: for each of `create`, `upsert`, `update`, `select`, `delete`,
if the client rejects the built statement with a driver error `e`, the
operation issues that one statement, appends exactly one entry `e` to
the error log, and rejects with `e` wrapped unchanged — no retry, no
translation, no partial result. -/
theorem ops_propagate_driver_errors (client : Client) (table : String)
    (fields wheres : List (String × Value)) (unique : List String)
    (s : ExecState) (sp : String × List Value) (e : DriverError) :
    (createStatement table fields = .ok sp →
      client (issuedStmt sp) = .error e →
      create client table fields s = (.error (.driver e),
        ⟨s.trace ++ [issuedStmt sp], s.log ++ [DbError.driver e]⟩)) ∧
    (upsertStatement table fields unique = .ok sp →
      client (issuedStmt sp) = .error e →
      upsert client table fields unique s = (.error (.driver e),
        ⟨s.trace ++ [issuedStmt sp], s.log ++ [DbError.driver e]⟩)) ∧
    (updateStatement table fields wheres = .ok sp →
      client (issuedStmt sp) = .error e →
      update client table fields wheres s = (.error (.driver e),
        ⟨s.trace ++ [issuedStmt sp], s.log ++ [DbError.driver e]⟩)) ∧
    (selectStatement table wheres = .ok sp →
      client (issuedStmt sp) = .error e →
      select client table wheres s = (.error (.driver e),
        ⟨s.trace ++ [issuedStmt sp], s.log ++ [DbError.driver e]⟩)) ∧
    (deleteStatement table wheres = .ok sp →
      client (issuedStmt sp) = .error e →
      delete client table wheres s = (.error (.driver e),
        ⟨s.trace ++ [issuedStmt sp], s.log ++ [DbError.driver e]⟩)) := by
  refine ⟨?_, ?_, ?_, ?_, ?_⟩ <;>
    · intro hb hc
      simp only [create, upsert, update, select, delete]
      rw [execStatement_run_ok hb, hc]

/-- Witness for `ops_propagate_driver_errors`: a failing client makes a
concrete `create` reject with the logged driver error. -/
theorem ops_propagate_driver_errors_witness :
    create clientErr "t" [("a", Value.vint 1)] ⟨[], []⟩ =
      (.error (.driver "boom"),
        ⟨(⟨[], []⟩ : ExecState).trace ++
          [issuedStmt ("insert into \"t\" (\"a\") values ($1)",
            [Value.vint 1])],
        (⟨[], []⟩ : ExecState).log ++ [DbError.driver "boom"]⟩) :=
  (ops_propagate_driver_errors clientErr "t" [("a", Value.vint 1)] [] []
    ⟨[], []⟩ ("insert into \"t\" (\"a\") values ($1)", [Value.vint 1])
    "boom").1 (by decide) rfl

/-! Claim C10: `getItemById` on zero or more returned rows. -/

/-- C10: when the driver returns zero rows for the underlying SELECT,
`getItemById` resolves successfully with the absent value `none` (JS
`rows[0]` on an empty list, i.e. `undefined`) instead of rejecting; when
at least one row is returned it resolves with the first row. -/
theorem getItemById_spec (client : Client) (table : String) (id : Value)
    (s : ExecState) (sp : String × List Value)
    (h : selectStatement table [("id", id)] = .ok sp) :
    (client (issuedStmt sp) = .ok [] →
      getItemById client table id s =
        (.ok none, ⟨s.trace ++ [issuedStmt sp], s.log⟩)) ∧
    (∀ (row : Row) (rest : List Row),
      client (issuedStmt sp) = .ok (row :: rest) →
      getItemById client table id s =
        (.ok (some row), ⟨s.trace ++ [issuedStmt sp], s.log⟩)) := by
  constructor
  · intro hc
    have he := @execStatement_run_ok client _ _ s h
    rw [hc] at he
    show M.bind (execStatement client (selectStatement table [("id", id)]))
      (fun rows => M.pure rows.head?) s = _
    simp only [M.bind]
    rw [he]
    rfl
  · intro row rest hc
    have he := @execStatement_run_ok client _ _ s h
    rw [hc] at he
    show M.bind (execStatement client (selectStatement table [("id", id)]))
      (fun rows => M.pure rows.head?) s = _
    simp only [M.bind]
    rw [he]
    rfl

/-- Witness for `getItemById_spec`: an empty-answering client makes a
concrete `getItemById` resolve with the absent value. -/
theorem getItemById_spec_witness :
    getItemById clientOk "t" (Value.vint 1) ⟨[], []⟩ =
      (.ok none,
        ⟨(⟨[], []⟩ : ExecState).trace ++
          [issuedStmt ("select * from \"t\" where \"id\" = $1",
            [Value.vint 1])],
        (⟨[], []⟩ : ExecState).log⟩) :=
  (getItemById_spec clientOk "t" (Value.vint 1) ⟨[], []⟩
    ("select * from \"t\" where \"id\" = $1", [Value.vint 1])
    (by decide)).1 rfl

/-! Claim C9: the batch transaction wrappers `writeRows` and
`deleteRows`. -/

lemma bind_query_none {β : Type} (client : Client) (c : String)
    (k : List Row → M β) (s : ExecState) :
    M.bind (query client c none) k s =
      (match client ⟨c, none⟩ with
        | .ok rows => k rows ⟨s.trace ++ [⟨c, none⟩], s.log⟩
        | .error e => (.error (.driver e), ⟨s.trace ++ [⟨c, none⟩], s.log⟩)) := by
  cases hc : client ⟨c, none⟩ <;> simp [M.bind, query, hc]

lemma query_none_run (client : Client) (c : String) (s : ExecState) :
    query client c none s =
      (match client ⟨c, none⟩ with
        | .ok rows => (.ok rows, ⟨s.trace ++ [⟨c, none⟩], s.log⟩)
        | .error e => (.error (.driver e), ⟨s.trace ++ [⟨c, none⟩], s.log⟩)) := by
  cases hc : client ⟨c, none⟩ <;> simp [query, hc]

lemma mloop_exec_ok {α : Type} (client : Client)
    (build : α → Except DbError (String × List Value)) :
    ∀ (xs : List α) (s s₁ : ExecState),
      mloop (fun x => execStatement client (build x)) xs s = (.ok (), s₁) →
      ∃ stmts, buildAll build xs = .ok stmts ∧
        s₁ = ⟨s.trace ++ stmts, s.log⟩ := by
  intro xs
  induction xs with
  | nil =>
    intro s s₁ h
    have hs : s = s₁ := by simpa [mloop, M.pure] using congrArg Prod.snd h
    subst hs
    exact ⟨[], rfl, by simp⟩
  | cons x rest ih =>
    intro s s₁ h
    rcases hres : execStatement client (build x) s with ⟨r, s₂⟩
    cases r with
    | error e =>
      simp only [mloop, M.bind, hres] at h
      exact absurd h (by simp)
    | ok v =>
      simp only [mloop, M.bind, hres] at h
      obtain ⟨sp, hbx, hcx, hs₂⟩ := execStatement_ok_inv hres
      obtain ⟨stmts, hball, hs₁⟩ := ih s₂ s₁ h
      refine ⟨issuedStmt sp :: stmts, ?_, ?_⟩
      · simp [buildAll, hbx, hball]
      · rw [hs₁, hs₂]
        simp

lemma mloop_exec_err {α : Type} (client : Client)
    (build : α → Except DbError (String × List Value)) :
    ∀ (xs : List α) (s : ExecState) (e : DbError) (s₁ : ExecState),
      mloop (fun x => execStatement client (build x)) xs s = (.error e, s₁) →
      ∃ k, ∃ hk : k < xs.length, ∃ stmts,
        buildAll build (xs.take k) = .ok stmts ∧
        execStatement client (build (xs.get ⟨k, hk⟩))
          ⟨s.trace ++ stmts, s.log⟩ = (.error e, s₁) ∧
        s₁.trace = s.trace ++ stmts ++ issuedOf (build (xs.get ⟨k, hk⟩)) := by
  intro xs
  induction xs with
  | nil =>
    intro s e s₁ h
    exact absurd h (by simp [mloop, M.pure])
  | cons x rest ih =>
    intro s e s₁ h
    rcases hres : execStatement client (build x) s with ⟨r, s₂⟩
    cases r with
    | error e₀ =>
      simp only [mloop, M.bind, hres] at h
      have he : e₀ = e := by simpa using congrArg Prod.fst h
      have hs : s₂ = s₁ := congrArg Prod.snd h
      subst he
      subst hs
      have hsk : (⟨s.trace ++ [], s.log⟩ : ExecState) = s := by simp
      refine ⟨0, by simp, [], rfl, ?_, ?_⟩
      · rw [hsk]
        exact hres
      · rcases execStatement_error_inv hres with ⟨hbe, hse⟩ |
          ⟨sp, de, hbx, hcx, hede, hs₂⟩
        · subst hse
          simp [issuedOf, hbe]
        · rw [hs₂]
          simp [issuedOf, hbx]
    | ok v =>
      simp only [mloop, M.bind, hres] at h
      obtain ⟨sp, hbx, hcx, hs₂⟩ := execStatement_ok_inv hres
      obtain ⟨k, hk, stmts, hball, hexec, htr⟩ := ih s₂ e s₁ h
      refine ⟨k + 1, by simpa using Nat.succ_lt_succ hk, issuedStmt sp :: stmts,
        ?_, ?_, ?_⟩
      · simp only [List.take_succ_cons]
        simp [buildAll, hbx, hball]
      · simp only [List.get_cons_succ]
        have hst : (⟨s.trace ++ (issuedStmt sp :: stmts), s.log⟩ : ExecState) =
            ⟨s₂.trace ++ stmts, s₂.log⟩ := by
          rw [hs₂]
          simp
        rw [hst]
        exact hexec
      · simp only [List.get_cons_succ]
        rw [htr, hs₂]
        simp

lemma buildAll_params_isSome {α : Type}
    {build : α → Except DbError (String × List Value)} :
    ∀ {xs : List α} {stmts : List Stmt}, buildAll build xs = .ok stmts →
      ∀ st ∈ stmts, st.params.isSome = true := by
  intro xs
  induction xs with
  | nil =>
    intro stmts h st hst
    have : ([] : List Stmt) = stmts := by simpa [buildAll] using h
    rw [← this] at hst
    exact absurd hst (by simp)
  | cons x rest ih =>
    intro stmts h st hst
    unfold buildAll at h
    cases hbx : build x with
    | error e => rw [hbx] at h; exact absurd h (by simp)
    | ok sp =>
      rw [hbx] at h
      cases hrest : buildAll build rest with
      | error e => rw [hrest] at h; exact absurd h (by simp)
      | ok stmts₀ =>
        rw [hrest] at h
        have : issuedStmt sp :: stmts₀ = stmts := by simpa using h
        rw [← this] at hst
        rcases List.mem_cons.mp hst with h₁ | h₁
        · rw [h₁]
          simp [issuedStmt]
        · exact ih hrest st h₁

lemma issuedOf_params_isSome {b : Except DbError (String × List Value)} :
    ∀ st ∈ issuedOf b, st.params.isSome = true := by
  intro st hst
  cases b with
  | error e => exact absurd hst (by simp [issuedOf])
  | ok sp =>
    have : st = issuedStmt sp := by simpa [issuedOf] using hst
    rw [this]
    simp [issuedStmt]

lemma txRun_ok {α : Type} (client : Client)
    (build : α → Except DbError (String × List Value)) (xs : List α)
    (s s₂ : ExecState)
    (h : (M.bind (query client "begin" none) fun _ =>
          M.bind (query client "SET CONSTRAINTS fk_parent DEFERRED" none) fun _ =>
          M.bind (mloop (fun x => execStatement client (build x)) xs) fun _ =>
          M.bind (query client "commit" none) fun _ => M.pure ()) s =
        (.ok (), s₂)) :
    ∃ stmts, buildAll build xs = .ok stmts ∧
      s₂ = ⟨s.trace ++ [beginStmt, deferStmt] ++ stmts ++ [commitStmt],
        s.log⟩ := by
  rw [bind_query_none] at h
  cases hcb : client ⟨"begin", none⟩ with
  | error e => rw [hcb] at h; exact absurd h (by simp)
  | ok b₁ =>
    rw [hcb] at h
    simp only at h
    rw [bind_query_none] at h
    cases hcd : client ⟨"SET CONSTRAINTS fk_parent DEFERRED", none⟩ with
    | error e => rw [hcd] at h; exact absurd h (by simp)
    | ok b₂ =>
      rw [hcd] at h
      simp only at h
      rcases hl : mloop (fun x => execStatement client (build x)) xs
          ⟨(s.trace ++ [⟨"begin", none⟩]) ++
            [⟨"SET CONSTRAINTS fk_parent DEFERRED", none⟩], s.log⟩ with
        ⟨rl, sL⟩
      cases rl with
      | error e =>
        simp only [M.bind, hl] at h
        exact absurd h (by simp)
      | ok u =>
        cases u
        simp only [M.bind, hl] at h
        rw [query_none_run] at h
        cases hcc : client ⟨"commit", none⟩ with
        | error e => rw [hcc] at h; simp at h
        | ok b₃ =>
          rw [hcc] at h
          simp only [M.pure] at h
          have hs₂ : s₂ = ⟨sL.trace ++ [⟨"commit", none⟩], sL.log⟩ := by
            simpa using (congrArg Prod.snd h).symm
          obtain ⟨stmts, hball, hsL⟩ := mloop_exec_ok client build xs _ _ hl
          refine ⟨stmts, hball, ?_⟩
          rw [hs₂, hsL]
          simp [beginStmt, deferStmt, commitStmt]

lemma txRun_err {α : Type} (client : Client)
    (build : α → Except DbError (String × List Value)) (xs : List α)
    (s sL : ExecState) (e : DbError) (b₁ b₂ : List Row)
    (hcb : client beginStmt = .ok b₁) (hcd : client deferStmt = .ok b₂)
    (hl : mloop (fun x => execStatement client (build x)) xs
      ⟨s.trace ++ [beginStmt, deferStmt], s.log⟩ = (.error e, sL)) :
    (M.bind (query client "begin" none) fun _ =>
      M.bind (query client "SET CONSTRAINTS fk_parent DEFERRED" none) fun _ =>
      M.bind (mloop (fun x => execStatement client (build x)) xs) fun _ =>
      M.bind (query client "commit" none) fun _ => M.pure ()) s =
        (.error e, sL) ∧
    commitStmt ∉ sL.trace.drop s.trace.length ∧
    ∃ k, ∃ hk : k < xs.length, ∃ stmts,
      buildAll build (xs.take k) = .ok stmts ∧
      sL.trace = s.trace ++ [beginStmt, deferStmt] ++ stmts ++
        issuedOf (build (xs.get ⟨k, hk⟩)) := by
  obtain ⟨k, hk, stmts, hball, hexec, htr⟩ :=
    mloop_exec_err client build xs _ e sL hl
  simp only at htr
  have htr₂ : sL.trace = s.trace ++ ([beginStmt, deferStmt] ++ stmts ++
      issuedOf (build (xs.get ⟨k, hk⟩))) := by
    rw [htr]
    simp
  simp only [beginStmt, deferStmt] at hcb hcd
  refine ⟨?_, ?_, ⟨k, hk, stmts, hball, htr⟩⟩
  · rw [bind_query_none, hcb]
    simp only
    rw [bind_query_none, hcd]
    simp only
    have hst : (⟨(s.trace ++ [⟨"begin", none⟩]) ++
        [⟨"SET CONSTRAINTS fk_parent DEFERRED", none⟩], s.log⟩ : ExecState) =
        ⟨s.trace ++ [beginStmt, deferStmt], s.log⟩ := by
      simp [beginStmt, deferStmt]
    rw [hst]
    simp only [M.bind, hl]
  · rw [htr₂, List.drop_left]
    intro hmem
    rcases List.mem_append.mp hmem with hmem₁ | hmem₂
    · rcases List.mem_append.mp hmem₁ with hmem₃ | hmem₄
      · have : commitStmt = beginStmt ∨ commitStmt = deferStmt := by
          simpa using hmem₃
        rcases this with h₁ | h₁ <;> exact absurd h₁ (by decide)
      · have := buildAll_params_isSome hball _ hmem₄
        simp [commitStmt] at this
    · have := issuedOf_params_isSome _ hmem₂
      simp [commitStmt] at this

/-- C9: `writeRows` (respectively `deleteRows`) issues exactly the
sequence `begin`, `SET CONSTRAINTS fk_parent DEFERRED`, one single-row
upsert (respectively one single-row delete by id) per input element in
input order, then `commit`, whenever it resolves; and when a per-row
operation inside the loop fails, the method rejects with that error, no
statement of any later element is issued (the trace ends at the failing
element), and `commit` is never issued. -/
theorem batch_transaction_spec (client : Client) (table : String)
    (rows : List (List (String × Value))) (ids : List Value)
    (unique : List String) (s sL : ExecState) (e : DbError)
    (b₁ b₂ : List Row) :
    (∀ s₂, writeRows client table rows unique s = (.ok (), s₂) →
      ∃ stmts,
        buildAll (fun row => upsertStatement table row unique) rows =
          .ok stmts ∧
        s₂ = ⟨s.trace ++ [beginStmt, deferStmt] ++ stmts ++ [commitStmt],
          s.log⟩) ∧
    (client beginStmt = .ok b₁ → client deferStmt = .ok b₂ →
      mloop (fun row => upsert client table row unique) rows
        ⟨s.trace ++ [beginStmt, deferStmt], s.log⟩ = (.error e, sL) →
      writeRows client table rows unique s = (.error e, sL) ∧
      commitStmt ∉ sL.trace.drop s.trace.length ∧
      ∃ k, ∃ hk : k < rows.length, ∃ stmts,
        buildAll (fun row => upsertStatement table row unique)
          (rows.take k) = .ok stmts ∧
        sL.trace = s.trace ++ [beginStmt, deferStmt] ++ stmts ++
          issuedOf (upsertStatement table (rows.get ⟨k, hk⟩) unique)) ∧
    (∀ s₂, deleteRows client table ids s = (.ok (), s₂) →
      ∃ stmts,
        buildAll (fun id => deleteStatement table [("id", id)]) ids =
          .ok stmts ∧
        s₂ = ⟨s.trace ++ [beginStmt, deferStmt] ++ stmts ++ [commitStmt],
          s.log⟩) ∧
    (client beginStmt = .ok b₁ → client deferStmt = .ok b₂ →
      mloop (fun id => delete client table [("id", id)]) ids
        ⟨s.trace ++ [beginStmt, deferStmt], s.log⟩ = (.error e, sL) →
      deleteRows client table ids s = (.error e, sL) ∧
      commitStmt ∉ sL.trace.drop s.trace.length ∧
      ∃ k, ∃ hk : k < ids.length, ∃ stmts,
        buildAll (fun id => deleteStatement table [("id", id)])
          (ids.take k) = .ok stmts ∧
        sL.trace = s.trace ++ [beginStmt, deferStmt] ++ stmts ++
          issuedOf (deleteStatement table [("id", ids.get ⟨k, hk⟩)])) := by
  refine ⟨?_, ?_, ?_, ?_⟩
  · intro s₂ h
    exact txRun_ok client (fun row => upsertStatement table row unique)
      rows s s₂ h
  · intro hcb hcd hl
    exact txRun_err client (fun row => upsertStatement table row unique)
      rows s sL e b₁ b₂ hcb hcd hl
  · intro s₂ h
    exact txRun_ok client (fun id => deleteStatement table [("id", id)])
      ids s s₂ h
  · intro hcb hcd hl
    exact txRun_err client (fun id => deleteStatement table [("id", id)])
      ids s sL e b₁ b₂ hcb hcd hl

/-- Witness for `batch_transaction_spec`: a one-row `writeRows` against
an always-succeeding client issues begin, defer, the single upsert, and
commit. -/
theorem batch_transaction_spec_witness :
    ∃ stmts,
      buildAll (fun row => upsertStatement "t" row ["a"])
        [[("a", Value.vint 1)]] = .ok stmts ∧
      (⟨[beginStmt, deferStmt,
          ⟨"insert into \"t\" (\"a\") values ($1) on conflict (a) do update set \"a\" = $1",
            some [Value.vint 1]⟩,
          commitStmt], []⟩ : ExecState) =
        ⟨(⟨[], []⟩ : ExecState).trace ++ [beginStmt, deferStmt] ++ stmts ++
          [commitStmt], (⟨[], []⟩ : ExecState).log⟩ :=
  (batch_transaction_spec clientOk "t" [[("a", Value.vint 1)]] [] ["a"]
    ⟨[], []⟩ ⟨[], []⟩ (.driver "x") [] []).1
    ⟨[beginStmt, deferStmt,
        ⟨"insert into \"t\" (\"a\") values ($1) on conflict (a) do update set \"a\" = $1",
          some [Value.vint 1]⟩,
        commitStmt], []⟩
    (by decide)

end TypedDb
